import Mathlib

/-!
# Verification of the `modmail-plugins` repository (invites + supportutils)

Shallow embedding of the two plugin cogs:

* `src/invites/invites.py` — the `Invites` cog: per-guild config documents,
  webhook-based log sending, and the member join/remove event handlers that
  track which invite a member used.
* `src/supportutils/core/config.py` — the `SupportUtilityConfig` wrapper with
  its recursive default-merging (`recursively_resolve_keys`).
* `src/supportutils/core/views.py` — the `ContactView` interaction check and
  constructor.

Python dictionaries are embedded as association lists; `None`-able values as
`Option`; exceptions raised and swallowed inside a function as `Option`/
`Except` results.  Every definition is translated from the corresponding
source function; the single spec-modelled definition (`candidateInvites`) is
marked as such in its doc comment.
-/

set_option autoImplicit false

namespace ModmailPlugins

/-- Association-list lookup, the embedding of Python `dict.__getitem__` /
`dict.get` returning the first binding of a key. -/
def alookup {α : Type} (k : String) : List (String × α) → Option α
  | [] => none
  | (k', v) :: rest => if k' = k then some v else alookup k rest

/-- Membership test for a key, the embedding of Python `key in dict`. -/
def acontains {α : Type} (k : String) (l : List (String × α)) : Bool :=
  (alookup k l).isSome

/-- Replace the value of the first binding of `k`, the embedding of
Python `d[k] = v` when `k` is already present (the binding keeps its
position). -/
def aset {α : Type} (k : String) (v : α) : List (String × α) → List (String × α)
  | [] => []
  | (k', v') :: rest => if k' = k then (k', v) :: rest else (k', v') :: aset k v rest

/-- Remove the first binding of `k`, the embedding of Python `d.pop(k)`'s
effect on the dictionary. -/
def aerase {α : Type} (k : String) : List (String × α) → List (String × α)
  | [] => []
  | (k', v') :: rest => if k' = k then rest else (k', v') :: aerase k rest

section InvitesCog

/-- The per-guild configuration document of the `Invites` cog
(`GuildConfigData` in `src/invites/invites.py`). -/
structure GuildConfigData where
  channel : String
  webhook : Option String
  enable : Bool
  store_data : Bool
  deriving Repr, DecidableEq

/-- `Invites.default_config` (`src/invites/invites.py` lines 60-65):
`{"channel": str(int()), "webhook": None, "enable": False, "store_data": True}`;
`str(int())` evaluates to `"0"`. -/
def default_config : GuildConfigData :=
  { channel := "0", webhook := none, enable := false, store_data := true }

/-- `Invites.guild_config` (`src/invites/invites.py` lines 103-110): look the
guild id up in the config cache; when absent, install a deep copy of the
defaults in the cache and return it.  Returns the config together with the
updated cache (Python mutates `self.config` in place). -/
def guild_config (cache : List (String × GuildConfigData)) (guild_id : String) :
    GuildConfigData × List (String × GuildConfigData) :=
  match alookup guild_id cache with
  | some config => (config, cache)
  | none => (default_config, cache ++ [(guild_id, default_config)])

/-- `Invites.invites_config_channel` (`src/invites/invites.py` lines 194-220),
the config mutation only: with a channel argument it runs
`config.update({"channel": str(channel.id), "webhook": None})`; without one it
only reads the config. -/
def invites_config_channel (config : GuildConfigData) (channel : Option Nat) :
    GuildConfigData :=
  match channel with
  | none => config
  | some cid => { config with channel := toString cid, webhook := none }

/-- `Invites.inv_store_enable` (`src/invites/invites.py` lines 287-314), the
config mutation only: with a boolean `mode` argument the code runs
`config.update({"enable": mode})`; with no argument it only reads
`config.get("store_data")`. -/
def inv_store_enable (config : GuildConfigData) (mode : Option Bool) :
    GuildConfigData :=
  match mode with
  | none => config
  | some m => { config with enable := m }

/-- A channel webhook as far as `_get_or_create_webhook` inspects it: its URL
and whether it carries a token (belongs to the client). -/
structure Webhook where
  url : String
  hasToken : Bool
  deriving Repr, DecidableEq

/-- The environment `_get_or_create_webhook` consults: whether the bot member
was found in the guild, whether it has the `manage_webhooks` permission on the
channel, the channel's existing webhooks, and the outcome of
`channel.create_webhook` (`none` embeds the exception caught at
`src/invites/invites.py` lines 142-144). -/
structure WebhookEnv where
  botInGuild : Bool
  manageWebhooks : Bool
  channelWebhooks : List Webhook
  createResult : Option Webhook
  deriving Repr, DecidableEq

/-- `Invites._get_or_create_webhook` (`src/invites/invites.py` lines 112-146):
return `None` without permission; otherwise pick the first existing webhook
with a token; otherwise try to create one, swallowing any exception into
`None`. -/
def get_or_create_webhook (env : WebhookEnv) : Option Webhook :=
  if !env.botInGuild || !env.manageWebhooks then none
  else
    match env.channelWebhooks.find? (fun x => x.hasToken) with
    | some wh => some wh
    | none => env.createResult

/-- Where `send_log_embed` delivers the embed: through a webhook (by URL), or
directly to the channel. -/
inductive SendTarget where
  | viaWebhook (url : String)
  | viaChannel
  deriving Repr, DecidableEq

/-- `Invites.send_log_embed` (`src/invites/invites.py` lines 557-587): when no
webhook URL is stored, try to get or create a webhook (storing its URL in the
config on success); when a URL is stored, build a webhook from it.  The embed
is sent through the webhook when one is available, otherwise directly to the
channel.  Returns the delivery target and the (possibly updated) config. -/
def send_log_embed (config : GuildConfigData) (env : WebhookEnv) :
    SendTarget × GuildConfigData :=
  match config.webhook with
  | none =>
    match get_or_create_webhook env with
    | some wh => (.viaWebhook wh.url, { config with webhook := some wh.url })
    | none => (.viaChannel, config)
  | some url => (.viaWebhook url, config)

/-- An invite snapshot entry as the inference heuristic consults it: an invite
code together with its use count. -/
abbrev InviteSnapshot := List (String × Nat)

/-- Modelled from the spec: `InviteTracker.get_used_invite` lives in
`src/invites/.core/models.py`, which is not part of the provided sources.
The spec says: "On member join, compare the cached invite snapshot
(uses-count per code) against a freshly fetched list; candidate invites are
those whose use count increased."  `old` is the cached snapshot, `new` the
freshly fetched list; the candidates are the codes of the fresh invites whose
use count is strictly greater than the cached count for the same code. -/
def candidateInvites (old new : InviteSnapshot) : List String :=
  (new.filter fun e =>
    match alookup e.1 old with
    | some u => decide (u < e.2)
    | none => false).map Prod.fst

/-- The status the member-join log embed reports for the invite inference
(`src/invites/invites.py` lines 618-650): a single candidate is reported
normally with its full fields; several candidates add the warning line
"More than 1 used invites are predicted."; no candidate adds the warning line
"Something went wrong! Invite info could not be resolved." -/
inductive JoinReport where
  | normal
  | multipleWarning
  | unresolvedWarning
  deriving Repr, DecidableEq

/-- `Invites.on_member_join` (`src/invites/invites.py` lines 589-654), the
part after the enable/channel guards, as a function of the predicted invites
`pred_invs` and the guild's `store_data` flag: which status the log embed
reports, and which invite (if any) is persisted via
`tracker.save_user_data(member, pred_invs[0])` — persisted exactly when
`len(pred_invs) == 1 and config.get("store_data")`. -/
def on_member_join (pred_invs : List String) (store_data : Bool) :
    JoinReport × Option String :=
  let report :=
    if pred_invs.isEmpty then JoinReport.unresolvedWarning
    else if pred_invs.length = 1 then JoinReport.normal
    else JoinReport.multipleWarning
  let saved :=
    if pred_invs.length = 1 && store_data then pred_invs.head? else none
  (report, saved)

/-- A stored user-invite record as `on_member_remove` manipulates it: the
`"guilds"` mapping from guild id to the per-guild data (holding the invite
used).  The invite payload is kept abstract as a `String`. -/
structure UserInviteRecord where
  guilds : List (String × String)
  deriving Repr, DecidableEq

/-- `Invites.on_member_remove` (`src/invites/invites.py` lines 656-673), the
data mutation: when the record holds an entry for the guild, pop it; delete
the whole record when no guild entries remain or storage is disabled,
otherwise keep the record with the remaining entries.  Returns the record
left in storage (`none` = deleted) and the popped invite data used for the
log embed. -/
def on_member_remove (user_data : Option UserInviteRecord) (guild_id : String)
    (store_data : Bool) : Option UserInviteRecord × Option String :=
  match user_data with
  | some data =>
    if acontains guild_id data.guilds then
      let invdata := alookup guild_id data.guilds
      let remaining := aerase guild_id data.guilds
      if remaining.isEmpty || !store_data then (none, invdata)
      else (some { guilds := remaining }, invdata)
    else (user_data, none)
  | none => (none, none)

end InvitesCog

section SupportUtilsCog

/-- A non-dictionary Python value as it occurs in the support-utility config
documents: `None`, booleans, strings, and (possibly nested) lists. -/
inductive Prim where
  | pnone
  | pbool (b : Bool)
  | pstr (s : String)
  | plist (xs : List Prim)

/-- A Python value inside a config document: either a non-dictionary value or
a nested dictionary (embedded as an association list preserving insertion
order, as Python dicts do). -/
inductive Val where
  | prim (p : Prim)
  | dict (entries : List (String × Val))

/-- A config document: a Python dict at the top level. -/
abbrev Doc := List (String × Val)

/-- `SupportUtilityConfig.recursively_resolve_keys`
(`src/supportutils/core/config.py` lines 64-71): iterate over the base
(default) document; a key missing from `data` is filled with a deep copy of
the default value; a key present whose default value is a dict is resolved
recursively inside `data`'s value.  Python raises a `TypeError` when the
stored value at such a key is not a dict (`key not in data` / item assignment
on a non-dict); that failure is embedded as `none`.  Deep copies are value
copies here, so `deepcopy` is the identity. -/
def recursively_resolve_keys : Doc → Doc → Option Doc
  | [], data => some data
  | (key, value) :: base, data =>
    match alookup key data with
    | none => recursively_resolve_keys base (data ++ [(key, value)])
    | some dv =>
      match value with
      | .prim _ => recursively_resolve_keys base data
      | .dict bsub =>
        match dv with
        | .prim _ => none
        | .dict dsub =>
          match recursively_resolve_keys bsub dsub with
          | none => none
          | some dsub' => recursively_resolve_keys base (aset key (.dict dsub') data)
termination_by base _ => sizeOf base
decreasing_by all_goals (simp_wf; try omega)

/-- The value of a document at a key path: `getPath v [k1, k2]` descends into
nested dictionaries. -/
def getPath : Val → List String → Option Val
  | v, [] => some v
  | .dict d, k :: p =>
    match alookup k d with
    | some v => getPath v p
    | none => none
  | .prim _, _ :: _ => none

/-- A key path is present in a document when `getPath` resolves it. -/
def hasPath (v : Val) (p : List String) : Bool :=
  (getPath v p).isSome

/-- Shape compatibility of a stored document with the default document:
wherever the default value at a present key is a dict, the stored value is a
dict too (so Python's recursion never hits a `TypeError`). -/
def compatible : Doc → Doc → Bool
  | [], _ => true
  | (key, value) :: base, data =>
    (match alookup key data, value with
      | some (.prim _), .dict _ => false
      | some (.dict dsub), .dict bsub => compatible bsub dsub
      | _, _ => true) && compatible base data
termination_by base _ => sizeOf base
decreasing_by all_goals (simp_wf; try omega)

/-- Well-formedness of the base (default) document: no duplicate keys at any
dictionary level. -/
def nodupKeys : Doc → Bool
  | [] => true
  | (key, value) :: base =>
    !acontains key base &&
      (match value with
        | .prim _ => true
        | .dict bsub => nodupKeys bsub) &&
      nodupKeys base
termination_by base => sizeOf base
decreasing_by all_goals (simp_wf; try omega)

/-- Helper to write string primitives in the default document. -/
def ps (s : String) : Val := .prim (.pstr s)

/-- Helper to write `None` in the default document. -/
def pnone : Val := .prim .pnone

/-- Helper to write booleans in the default document. -/
def pb (b : Bool) : Val := .prim (.pbool b)

/-- `_default_config` of `src/supportutils/core/config.py` (lines 14-51),
embedded verbatim with insertion order preserved. -/
def supportutils_default_config : Doc :=
  [ ("contact", .dict
      [ ("message", pnone),
        ("channel", pnone),
        ("embed", .dict
          [ ("title", ps "Contact Staff"),
            ("description", ps "Use button or dropdown below to contact our staff."),
            ("footer", pnone) ]),
        ("button", .dict []),
        ("select", .dict
          [ ("options", .prim (.plist [])),
            ("placeholder", ps "Choose a category") ]),
        ("override_dmdisabled", pb false),
        ("confirmation", .dict
          [ ("enable", pb true),
            ("embed", .dict
              [ ("title", ps "Confirm thread creation"),
                ("description", ps "Use the button below to confirm thread creation which will directly contact the moderators."),
                ("footer", pnone) ]) ]) ]),
    ("feedback", .dict
      [ ("enable", pb false),
        ("channel", pnone),
        ("embed", .dict
          [ ("title", ps "Feedback"),
            ("description", ps "Press the button below to give a feedback."),
            ("footer", pnone) ]),
        ("button", .dict []),
        ("response", ps "Thanks for your time. Your feedback has been submitted to our staff team."),
        ("active_sessions", .prim (.plist [])),
        ("rating", .dict
          [ ("enable", pb false),
            ("placeholder", ps "Choose a rating") ]) ]) ]

/-- The `DMDisabled` flag of the host bot's config
(`core.models.DMDisabled`): DMs fully enabled, disabled for new threads, or
disabled for all threads. -/
inductive DMDisabled where
  | nothing
  | newThreads
  | allThreads
  deriving Repr, DecidableEq

/-- The state `ContactView.interaction_check` consults for the interacting
user (`src/supportutils/core/views.py` lines 159-187). -/
structure InteractionState where
  isMainGuildMember : Bool
  hasOpenThread : Bool
  isBlocked : Bool
  dmDisabled : DMDisabled
  deriving Repr, DecidableEq

/-- The visible response of `ContactView.interaction_check`: a bare
`interaction.response.defer()`, or an ephemeral embed explaining the
refusal, or nothing (the check passed and the flow proceeds). -/
inductive CheckResponse where
  | deferOnly
  | ephemeralThreadExists
  | ephemeralBlocked
  | ephemeralDMDisabled
  | proceed
  deriving Repr, DecidableEq

/-- `ContactView.interaction_check` (`src/supportutils/core/views.py` lines
159-187): a non-member of the main guild gets a bare defer and `False`; an
existing open thread, a blocked user, or Modmail DMs disabled for new threads
(`dm_disabled in (NEW_THREADS, ALL_THREADS)`) each get an ephemeral embed and
`False`; otherwise the check returns `True`. -/
def interaction_check (st : InteractionState) : Bool × CheckResponse :=
  if !st.isMainGuildMember then (false, .deferOnly)
  else if st.hasOpenThread then (false, .ephemeralThreadExists)
  else if st.isBlocked then (false, .ephemeralBlocked)
  else if st.dmDisabled = .newThreads || st.dmDisabled = .allThreads then
    (false, .ephemeralDMDisabled)
  else (true, .proceed)

/-- `ContactView.__init__` (`src/supportutils/core/views.py` lines 132-157),
its effect on the contact manager: `manager.view` starts as `MISSING`
(embedded as `none`); constructing a view while another is attached raises
`RuntimeError("Another view is already attached to ContactManager
instance.")` without touching the manager, and a successful construction
stores the new view in `manager.view`.  Views are identified by a `Nat`
tag. -/
def contactViewInit (managerView : Option Nat) (newView : Nat) :
    Except String (Option Nat) :=
  match managerView with
  | some _ => .error "Another view is already attached to ContactManager instance."
  | none => .ok (some newView)

end SupportUtilsCog

/-! ## Association-list lemmas -/

theorem alookup_append {α : Type} (k : String) (l₁ l₂ : List (String × α)) :
    alookup k (l₁ ++ l₂) =
      match alookup k l₁ with
      | some v => some v
      | none => alookup k l₂ := by
  induction l₁ with
  | nil => simp [alookup]
  | cons e rest ih =>
    obtain ⟨k', v⟩ := e
    by_cases hk : k' = k <;> simp [alookup, hk, ih]

theorem alookup_append_of_none {α : Type} {k : String} {l₁ : List (String × α)}
    (h : alookup k l₁ = none) (l₂ : List (String × α)) :
    alookup k (l₁ ++ l₂) = alookup k l₂ := by
  rw [alookup_append, h]

theorem alookup_aset_ne {α : Type} {k' k : String} (hne : k' ≠ k) (v : α)
    (l : List (String × α)) : alookup k' (aset k v l) = alookup k' l := by
  induction l with
  | nil => rfl
  | cons e rest ih =>
    obtain ⟨k₀, v₀⟩ := e
    simp only [aset]
    split_ifs with h₀
    · have hk : ¬(k₀ = k') := fun h => hne (h.symm.trans h₀)
      simp [alookup, hk]
    · simp [alookup, ih]

theorem alookup_aset_self {α : Type} {k : String} {l : List (String × α)}
    (h : acontains k l = true) (v : α) : alookup k (aset k v l) = some v := by
  induction l with
  | nil => simp [acontains, alookup] at h
  | cons e rest ih =>
    obtain ⟨k₀, v₀⟩ := e
    by_cases h₀ : k₀ = k
    · simp [aset, alookup, h₀]
    · have h' : acontains k rest = true := by
        simpa [acontains, alookup, h₀] using h
      simp [aset, alookup, h₀, ih h']

theorem alookup_aerase_ne {α : Type} {k' k : String} (hne : k' ≠ k)
    (l : List (String × α)) : alookup k' (aerase k l) = alookup k' l := by
  induction l with
  | nil => rfl
  | cons e rest ih =>
    obtain ⟨k₀, v₀⟩ := e
    simp only [aerase]
    split_ifs with h₀
    · have hk : ¬(k₀ = k') := fun h => hne (h.symm.trans h₀)
      simp [alookup, hk]
    · simp [alookup, ih]

theorem alookup_mem {α : Type} {k : String} {v : α} :
    ∀ {l : List (String × α)}, alookup k l = some v → (k, v) ∈ l := by
  intro l
  induction l with
  | nil => intro h; simp [alookup] at h
  | cons e rest ih =>
    obtain ⟨k₀, v₀⟩ := e
    intro h
    by_cases h₀ : k₀ = k
    · subst h₀
      simp only [alookup, if_pos] at h
      cases h
      exact List.mem_cons_self _ _
    · simp only [alookup, if_neg h₀] at h
      exact List.mem_cons_of_mem _ (ih h)

theorem alookup_aerase_self {α : Type} {k : String} {l : List (String × α)}
    (hnd : (l.map Prod.fst).Nodup) : alookup k (aerase k l) = none := by
  induction l with
  | nil => rfl
  | cons e rest ih =>
    obtain ⟨k₀, v₀⟩ := e
    simp only [List.map_cons, List.nodup_cons] at hnd
    simp only [aerase]
    split_ifs with h₀
    · cases hrest : alookup k rest with
      | none => rfl
      | some v =>
        exact absurd (List.mem_map.mpr ⟨(k, v), alookup_mem hrest, h₀.symm⟩) hnd.1
    · simp [alookup, h₀, ih hnd.2]

theorem alookup_of_mem_nodup {α : Type} {l : List (String × α)}
    (hnd : (l.map Prod.fst).Nodup) {e : String × α} (he : e ∈ l) :
    alookup e.1 l = some e.2 := by
  induction l with
  | nil => simp at he
  | cons a rest ih =>
    obtain ⟨k₀, v₀⟩ := a
    simp only [List.map_cons, List.nodup_cons] at hnd
    rcases List.mem_cons.mp he with h | h
    · subst h
      simp [alookup]
    · have hne : ¬(k₀ = e.1) := by
        intro hk
        exact hnd.1 (List.mem_map.mpr ⟨e, h, hk.symm⟩)
      simp [alookup, hne, ih hnd.2 h]

/-! ## Claim theorems -/

/-- C5: for a guild id with no stored config document, `guild_config` yields
exactly the declared defaults — channel `"0"`, webhook `None`, enable
`False`, store_data `True` — and installs them in the cache, so a subsequent
access returns the same document from the unchanged cache. -/
theorem guild_config_defaults (cache : List (String × GuildConfigData))
    (gid : String) (h : alookup gid cache = none) :
    guild_config cache gid = (default_config, cache ++ [(gid, default_config)]) ∧
    default_config.channel = "0" ∧ default_config.webhook = none ∧
    default_config.enable = false ∧ default_config.store_data = true ∧
    guild_config (cache ++ [(gid, default_config)]) gid =
      (default_config, cache ++ [(gid, default_config)]) := by
  refine ⟨?_, rfl, rfl, rfl, rfl, ?_⟩
  · unfold guild_config
    rw [h]
  · unfold guild_config
    rw [alookup_append_of_none h]
    simp [alookup]

/-- C5 witness: instantiation at an empty cache and guild id `"123"`. -/
theorem guild_config_defaults_witness :
    guild_config [] "123" = (default_config, [("123", default_config)]) ∧
    default_config.channel = "0" ∧ default_config.webhook = none ∧
    default_config.enable = false ∧ default_config.store_data = true ∧
    guild_config [("123", default_config)] "123" =
      (default_config, [("123", default_config)]) := by
  simpa using guild_config_defaults [] "123" (by rfl)

/-- C10: `invites config channel <channel>` sets the stored channel id to the
given channel, resets the stored webhook URL to `None` (so the next
`send_log_embed` goes through `_get_or_create_webhook` to look up or create a
webhook anew), and leaves `enable` and `store_data` unchanged; invoked
without an argument it changes nothing. -/
theorem invites_config_channel_spec (config : GuildConfigData) (cid : Nat)
    (env : WebhookEnv) :
    (invites_config_channel config (some cid)).channel = toString cid ∧
    (invites_config_channel config (some cid)).webhook = none ∧
    (invites_config_channel config (some cid)).enable = config.enable ∧
    (invites_config_channel config (some cid)).store_data = config.store_data ∧
    invites_config_channel config none = config ∧
    send_log_embed (invites_config_channel config (some cid)) env =
      (match get_or_create_webhook env with
        | some wh => (SendTarget.viaWebhook wh.url,
            { invites_config_channel config (some cid) with webhook := some wh.url })
        | none => (SendTarget.viaChannel, invites_config_channel config (some cid))) := by
  refine ⟨rfl, rfl, rfl, rfl, rfl, ?_⟩
  unfold send_log_embed invites_config_channel
  rfl

/-- C4 counterpart (the code as written): `invites store enable <mode>` with
an explicit boolean writes the `enable` field and leaves `store_data`
untouched, contradicting the command's own documentation ("Enable or disable
the data storing feature") and its read path (`config.get("store_data")`).
Evaluated at the failing input: config with `enable = True`, `store_data =
True` (the default), argument `False`. -/
theorem inv_store_enable_bug :
    (inv_store_enable { default_config with enable := true } (some false)).store_data
        = true ∧
    (inv_store_enable { default_config with enable := true } (some false)).enable
        = false := by
  exact ⟨rfl, rfl⟩

/-- C9: at most one `ContactView` can be attached to the contact manager:
constructing while a view is attached raises `RuntimeError` (the manager
keeps its previously attached view), and a successful construction stores the
new view in `manager.view`. -/
theorem contactViewInit_spec (managerView : Option Nat) (newView : Nat) :
    (managerView = none → contactViewInit managerView newView = .ok (some newView)) ∧
    (∀ w, managerView = some w →
      contactViewInit managerView newView =
        .error "Another view is already attached to ContactManager instance.") := by
  constructor
  · intro h
    subst h
    rfl
  · intro w h
    subst h
    rfl

/-- C9 witness: a fresh manager accepts view `1`; a manager holding view `1`
rejects view `2`. -/
theorem contactViewInit_spec_witness :
    contactViewInit none 1 = .ok (some 1) ∧
    contactViewInit (some 1) 2 =
      .error "Another view is already attached to ContactManager instance." :=
  ⟨(contactViewInit_spec none 1).1 rfl, (contactViewInit_spec (some 1) 2).2 1 rfl⟩

/-- C2: on a handled member-join, exactly one inferred candidate is reported
normally in the log embed and persisted exactly when storage is enabled;
zero candidates or several candidates are reported with a degraded status
(the "could not be resolved" / "more than 1 predicted" warnings) and nothing
is persisted. -/
theorem on_member_join_spec (pred_invs : List String) (store_data : Bool) :
    (pred_invs.length = 1 →
      (on_member_join pred_invs store_data).1 = .normal ∧
      (store_data = true → (on_member_join pred_invs store_data).2 = pred_invs.head?) ∧
      (store_data = false → (on_member_join pred_invs store_data).2 = none)) ∧
    (pred_invs.length ≠ 1 →
      (on_member_join pred_invs store_data).1 ≠ .normal ∧
      (on_member_join pred_invs store_data).2 = none) ∧
    (pred_invs = [] → (on_member_join pred_invs store_data).1 = .unresolvedWarning) ∧
    (2 ≤ pred_invs.length →
      (on_member_join pred_invs store_data).1 = .multipleWarning) := by
  refine ⟨?_, ?_, ?_, ?_⟩
  · intro h1
    obtain ⟨a, rfl⟩ := List.length_eq_one.mp h1
    cases store_data <;> simp [on_member_join]
  · intro h1
    rcases pred_invs with _ | ⟨a, _ | ⟨b, r⟩⟩
    · exact ⟨by simp [on_member_join], rfl⟩
    · exact absurd rfl h1
    · have h2 : ¬((a :: b :: r).length = 1) := by
        simp only [List.length_cons]
        omega
      simp [on_member_join, h2]
  · rintro rfl
    rfl
  · intro h2
    rcases pred_invs with _ | ⟨a, _ | ⟨b, r⟩⟩
    · simp at h2
    · simp at h2
    · have h3 : ¬((a :: b :: r).length = 1) := by
        simp only [List.length_cons]
        omega
      simp [on_member_join, h3]

/-- C2 witness: one candidate with storage on is reported normally and
persisted; two candidates give the multiple-invites warning and persist
nothing; no candidate gives the unresolved warning. -/
theorem on_member_join_spec_witness :
    (on_member_join ["a"] true).1 = .normal ∧
    (on_member_join ["a"] true).2 = some "a" ∧
    (on_member_join ["a"] false).2 = none ∧
    (on_member_join ["a", "b"] true).1 = .multipleWarning ∧
    (on_member_join ["a", "b"] true).2 = none ∧
    (on_member_join [] true).1 = .unresolvedWarning :=
  ⟨((on_member_join_spec ["a"] true).1 rfl).1,
    ((on_member_join_spec ["a"] true).1 rfl).2.1 rfl,
    ((on_member_join_spec ["a"] false).1 rfl).2.2 rfl,
    (on_member_join_spec ["a", "b"] true).2.2.2 (by decide),
    ((on_member_join_spec ["a", "b"] true).2.1 (by decide)).2,
    (on_member_join_spec [] true).2.2.1 rfl⟩

/-- C3: on a handled member-remove for a user whose stored record holds an
entry for the guild, the popped entry feeds the log embed; the whole record
is deleted exactly when storage is disabled or no guild entries remain after
removal, and otherwise the record is retained with the guild entry removed
and every other guild entry unchanged. -/
theorem on_member_remove_spec (guilds : List (String × String))
    (gid inv : String) (store_data : Bool)
    (hnd : (guilds.map Prod.fst).Nodup) (h : alookup gid guilds = some inv) :
    (on_member_remove (some ⟨guilds⟩) gid store_data).2 = some inv ∧
    ((store_data = false ∨ aerase gid guilds = []) →
      (on_member_remove (some ⟨guilds⟩) gid store_data).1 = none) ∧
    (store_data = true → aerase gid guilds ≠ [] →
      (on_member_remove (some ⟨guilds⟩) gid store_data).1 =
        some ⟨aerase gid guilds⟩) ∧
    alookup gid (aerase gid guilds) = none ∧
    (∀ g, g ≠ gid → alookup g (aerase gid guilds) = alookup g guilds) := by
  have hc : acontains gid guilds = true := by simp [acontains, h]
  refine ⟨?_, ?_, ?_, alookup_aerase_self hnd, fun g hg => alookup_aerase_ne hg guilds⟩
  · simp only [on_member_remove, hc, if_true, h]
    split_ifs <;> rfl
  · intro hcond
    rcases hcond with hstore | hempty
    · subst hstore
      simp [on_member_remove, hc]
    · simp [on_member_remove, hc, hempty]
  · intro hstore hne
    subst hstore
    have hie : (aerase gid guilds).isEmpty = false := by
      cases he : aerase gid guilds with
      | nil => exact absurd he hne
      | cons x t => rfl
    simp [on_member_remove, hc, hie]

/-- C3 witness: with storage on, leaving guild `g1` keeps the record with the
`g2` entry only; with storage off, or when `g1` was the only entry, the
record is deleted. -/
theorem on_member_remove_spec_witness :
    (on_member_remove (some ⟨[("g1", "invA"), ("g2", "invB")]⟩) "g1" true).2
        = some "invA" ∧
    (on_member_remove (some ⟨[("g1", "invA"), ("g2", "invB")]⟩) "g1" true).1
        = some ⟨[("g2", "invB")]⟩ ∧
    (on_member_remove (some ⟨[("g1", "invA"), ("g2", "invB")]⟩) "g1" false).1
        = none ∧
    (on_member_remove (some ⟨[("g1", "invA")]⟩) "g1" true).1 = none ∧
    alookup "g2" (aerase "g1" [("g1", "invA"), ("g2", "invB")]) = some "invB" :=
  ⟨(on_member_remove_spec [("g1", "invA"), ("g2", "invB")] "g1" "invA" true
      (by decide) (by decide)).1,
    (on_member_remove_spec [("g1", "invA"), ("g2", "invB")] "g1" "invA" true
      (by decide) (by decide)).2.2.1 rfl (by decide),
    (on_member_remove_spec [("g1", "invA"), ("g2", "invB")] "g1" "invA" false
      (by decide) (by decide)).2.1 (Or.inl rfl),
    (on_member_remove_spec [("g1", "invA")] "g1" "invA" true
      (by decide) (by decide)).2.1 (Or.inr rfl),
    (on_member_remove_spec [("g1", "invA"), ("g2", "invB")] "g1" "invA" true
      (by decide) (by decide)).2.2.2.2 "g2" (by decide)⟩

/-- C7: when no webhook URL is stored and no webhook can be obtained (the bot
member is missing, the `manage_webhooks` permission is missing, or no
token-carrying webhook exists and creation raised), the failure is swallowed
and the embed is sent directly to the channel with the config unchanged;
when a webhook is obtained, the embed is sent through it and its URL is
stored. -/
theorem send_log_embed_fallback (config : GuildConfigData) (env : WebhookEnv)
    (hnone : config.webhook = none) :
    ((env.botInGuild = false ∨ env.manageWebhooks = false ∨
        (env.channelWebhooks.find? (fun x => x.hasToken) = none ∧
          env.createResult = none)) →
      send_log_embed config env = (.viaChannel, config)) ∧
    (∀ wh, get_or_create_webhook env = some wh →
      send_log_embed config env =
        (.viaWebhook wh.url, { config with webhook := some wh.url })) := by
  constructor
  · intro hfail
    have hge : get_or_create_webhook env = none := by
      unfold get_or_create_webhook
      rcases hfail with h | h | ⟨h1, h2⟩
      · simp [h]
      · simp [h]
      · simp [h1, h2]
    simp [send_log_embed, hnone, hge]
  · intro wh hwh
    simp [send_log_embed, hnone, hwh]

/-- C7 witness: a config with no stored URL falls back to a direct channel
send when the permission is missing, and uses the webhook when an existing
token-carrying webhook is found. -/
theorem send_log_embed_fallback_witness :
    send_log_embed default_config ⟨true, false, [], none⟩ =
      (.viaChannel, default_config) ∧
    send_log_embed default_config ⟨true, true, [⟨"wh-url", true⟩], none⟩ =
      (.viaWebhook "wh-url", { default_config with webhook := some "wh-url" }) :=
  ⟨(send_log_embed_fallback default_config ⟨true, false, [], none⟩ rfl).1
      (Or.inr (Or.inl rfl)),
    (send_log_embed_fallback default_config ⟨true, true, [⟨"wh-url", true⟩], none⟩
      rfl).2 ⟨"wh-url", true⟩ rfl⟩

/-- C8: the contact-panel interaction check passes exactly when the user is a
member of the main guild with no open thread, is not blocked, and Modmail DMs
are not disabled for new threads; every failing case returns `False`, with a
bare defer for non-members and an ephemeral explanation otherwise. -/
theorem interaction_check_spec (st : InteractionState) :
    ((interaction_check st).1 = true ↔
      (st.isMainGuildMember = true ∧ st.hasOpenThread = false ∧
        st.isBlocked = false ∧ st.dmDisabled ≠ .newThreads ∧
        st.dmDisabled ≠ .allThreads)) ∧
    (st.isMainGuildMember = false → interaction_check st = (false, .deferOnly)) ∧
    ((interaction_check st).1 = false → st.isMainGuildMember = true →
      (interaction_check st).2 ≠ .deferOnly ∧ (interaction_check st).2 ≠ .proceed) ∧
    ((interaction_check st).1 = true ↔ (interaction_check st).2 = .proceed) := by
  obtain ⟨m, t, b, d⟩ := st
  cases m <;> cases t <;> cases b <;> cases d <;> decide

/-- C8 witness: a clean member passes; a non-member is deferred without an
explanation; a blocked member fails with an ephemeral explanation. -/
theorem interaction_check_spec_witness :
    (interaction_check ⟨true, false, false, .nothing⟩).1 = true ∧
    interaction_check ⟨false, false, false, .nothing⟩ = (false, .deferOnly) ∧
    (interaction_check ⟨true, false, true, .nothing⟩).2 ≠ .deferOnly ∧
    (interaction_check ⟨true, false, true, .nothing⟩).2 ≠ .proceed :=
  ⟨(interaction_check_spec ⟨true, false, false, .nothing⟩).1.mpr
      ⟨rfl, rfl, rfl, by decide, by decide⟩,
    (interaction_check_spec ⟨false, false, false, .nothing⟩).2.1 rfl,
    (interaction_check_spec ⟨true, false, true, .nothing⟩).2.2.1 rfl rfl⟩

/-! ## Document-merge lemmas (supportutils config) -/

theorem getPath_nil (v : Val) : getPath v [] = some v := by
  cases v <;> rfl

theorem compatible_nil (data : Doc) : compatible [] data = true := by
  rw [compatible.eq_def]

theorem compatible_cons (k : String) (v : Val) (base data : Doc) :
    compatible ((k, v) :: base) data =
      ((match alookup k data, v with
        | some (.prim _), .dict _ => false
        | some (.dict dsub), .dict bsub => compatible bsub dsub
        | _, _ => true) && compatible base data) := by
  rw [compatible.eq_def]

theorem getPath_dict_cons (d : Doc) (k : String) (p : List String) :
    getPath (.dict d) (k :: p) =
      match alookup k d with
      | some v => getPath v p
      | none => none := rfl

theorem acontains_of_mem {α : Type} {l : List (String × α)} {e : String × α}
    (he : e ∈ l) : acontains e.1 l = true := by
  induction l with
  | nil => simp at he
  | cons a rest ih =>
    obtain ⟨k₀, v₀⟩ := a
    by_cases h₀ : k₀ = e.1
    · simp [acontains, alookup, h₀]
    · rcases List.mem_cons.mp he with rfl | h
      · exact absurd rfl h₀
      · have := ih h
        simp only [acontains, alookup, if_neg h₀]
        exact this

theorem alookup_append_single_ne {α : Type} {k' k : String} (hne : k' ≠ k)
    (d : List (String × α)) (v : α) :
    alookup k' (d ++ [(k, v)]) = alookup k' d := by
  rw [alookup_append]
  cases h : alookup k' d with
  | some w => rfl
  | none =>
    have : ¬(k = k') := fun hk => hne hk.symm
    simp [alookup, this]

theorem hasPath_append (d : Doc) (k : String) (v : Val) (q : List String)
    (hq : hasPath (.dict d) q = true) : hasPath (.dict (d ++ [(k, v)])) q = true := by
  cases q with
  | nil => rfl
  | cons k' q' =>
    simp only [hasPath, getPath_dict_cons] at hq ⊢
    rw [alookup_append]
    cases hl : alookup k' d with
    | none => simp [hl] at hq
    | some w =>
      rw [hl] at hq
      exact hq

theorem getPath_append_prim (d : Doc) (k : String) (v : Val) (q : List String)
    (w : Prim) (hq : getPath (.dict d) q = some (.prim w)) :
    getPath (.dict (d ++ [(k, v)])) q = some (.prim w) := by
  cases q with
  | nil => simp [getPath_nil] at hq
  | cons k' q' =>
    simp only [getPath_dict_cons] at hq ⊢
    rw [alookup_append]
    cases hl : alookup k' d with
    | none => simp [hl] at hq
    | some u =>
      rw [hl] at hq
      exact hq

theorem compatible_frame : ∀ (b d d' : Doc),
    (∀ e ∈ b, alookup e.1 d' = alookup e.1 d) →
    compatible b d = true → compatible b d' = true := by
  intro b
  induction b with
  | nil =>
    intro d d' _ _
    exact compatible_nil d'
  | cons e base ih =>
    obtain ⟨k, v⟩ := e
    intro d d' hpt hc
    have hk : alookup k d' = alookup k d := hpt (k, v) (List.mem_cons_self _ _)
    rw [compatible_cons, Bool.and_eq_true] at hc ⊢
    rw [hk]
    exact ⟨hc.1, ih d d' (fun e he => hpt e (List.mem_cons_of_mem _ he)) hc.2⟩

/-- Presence of stored key paths is preserved by the merge. -/
theorem resolve_mono (b d : Doc) :
    ∀ out, recursively_resolve_keys b d = some out →
      ∀ q, hasPath (.dict d) q = true → hasPath (.dict out) q = true := by
  induction b, d using recursively_resolve_keys.induct with
  | case1 data =>
    intro out h q hq
    obtain rfl : data = out := by simpa [recursively_resolve_keys] using h
    exact hq
  | case2 key value base data hlook ih =>
    intro out h q hq
    have h' : recursively_resolve_keys base (data ++ [(key, value)]) = some out := by
      simpa [recursively_resolve_keys, hlook] using h
    exact ih out h' q (hasPath_append data key value q hq)
  | case3 key base data dv hlook p ih =>
    intro out h q hq
    have h' : recursively_resolve_keys base data = some out := by
      simpa [recursively_resolve_keys, hlook] using h
    exact ih out h' q hq
  | case4 key base data dsub p hlook =>
    intro out h q hq
    simp [recursively_resolve_keys, hlook] at h
  | case5 key base data dsub dsub₁ hsub hlook ihsub =>
    intro out h q hq
    simp [recursively_resolve_keys, hlook, hsub] at h
  | case6 key base data dsub dsub₁ dsub' hsub hlook ihsub ih =>
    intro out h q hq
    have h' : recursively_resolve_keys base (aset key (.dict dsub') data) = some out := by
      simpa [recursively_resolve_keys, hlook, hsub] using h
    apply ih out h' q
    cases q with
    | nil => rfl
    | cons k' q' =>
      by_cases hk : k' = key
      · subst hk
        simp only [hasPath, getPath_dict_cons, hlook] at hq
        have hsome : alookup k' (aset k' (Val.dict dsub') data) = some (.dict dsub') :=
          alookup_aset_self (by simp [acontains, hlook]) _
        simp only [hasPath, getPath_dict_cons, hsome]
        exact ihsub dsub' hsub q' hq
      · have heq : alookup k' (aset key (Val.dict dsub') data) = alookup k' data :=
          alookup_aset_ne hk _ _
        simp only [hasPath, getPath_dict_cons, heq]
        simp only [hasPath, getPath_dict_cons] at hq
        exact hq

/-- Values of stored non-dict leaves are preserved by the merge. -/
theorem resolve_preserves (b d : Doc) :
    ∀ out, recursively_resolve_keys b d = some out →
      ∀ q w, getPath (.dict d) q = some (.prim w) →
        getPath (.dict out) q = some (.prim w) := by
  induction b, d using recursively_resolve_keys.induct with
  | case1 data =>
    intro out h q w hq
    obtain rfl : data = out := by simpa [recursively_resolve_keys] using h
    exact hq
  | case2 key value base data hlook ih =>
    intro out h q w hq
    have h' : recursively_resolve_keys base (data ++ [(key, value)]) = some out := by
      simpa [recursively_resolve_keys, hlook] using h
    exact ih out h' q w (getPath_append_prim data key value q w hq)
  | case3 key base data dv hlook p ih =>
    intro out h q w hq
    have h' : recursively_resolve_keys base data = some out := by
      simpa [recursively_resolve_keys, hlook] using h
    exact ih out h' q w hq
  | case4 key base data dsub p hlook =>
    intro out h q w hq
    simp [recursively_resolve_keys, hlook] at h
  | case5 key base data dsub dsub₁ hsub hlook ihsub =>
    intro out h q w hq
    simp [recursively_resolve_keys, hlook, hsub] at h
  | case6 key base data dsub dsub₁ dsub' hsub hlook ihsub ih =>
    intro out h q w hq
    have h' : recursively_resolve_keys base (aset key (.dict dsub') data) = some out := by
      simpa [recursively_resolve_keys, hlook, hsub] using h
    apply ih out h' q w
    cases q with
    | nil => simp [getPath_nil] at hq
    | cons k' q' =>
      by_cases hk : k' = key
      · subst hk
        simp only [getPath_dict_cons, hlook] at hq
        have hsome : alookup k' (aset k' (Val.dict dsub') data) = some (.dict dsub') :=
          alookup_aset_self (by simp [acontains, hlook]) _
        simp only [getPath_dict_cons, hsome]
        exact ihsub dsub' hsub q' w hq
      · have heq : alookup k' (aset key (Val.dict dsub') data) = alookup k' data :=
          alookup_aset_ne hk _ _
        simp only [getPath_dict_cons, heq]
        simp only [getPath_dict_cons] at hq
        exact hq

/-- Every key path of the base (default) document is present after the
merge. -/
theorem resolve_adds_base (b d : Doc) :
    ∀ out, recursively_resolve_keys b d = some out →
      ∀ q, hasPath (.dict b) q = true → hasPath (.dict out) q = true := by
  induction b, d using recursively_resolve_keys.induct with
  | case1 data =>
    intro out h q hq
    obtain rfl : data = out := by simpa [recursively_resolve_keys] using h
    cases q with
    | nil => rfl
    | cons k' q' => simp [hasPath, getPath_dict_cons, alookup] at hq
  | case2 key value base data hlook ih =>
    intro out h q hq
    have h' : recursively_resolve_keys base (data ++ [(key, value)]) = some out := by
      simpa [recursively_resolve_keys, hlook] using h
    cases q with
    | nil => rfl
    | cons k' q' =>
      by_cases hk : k' = key
      · subst hk
        simp only [hasPath, getPath_dict_cons, alookup, if_pos rfl] at hq
        have hsome : alookup k' (data ++ [(k', value)]) = some value := by
          rw [alookup_append, hlook]
          simp [alookup]
        apply resolve_mono base (data ++ [(k', value)]) out h' (k' :: q')
        simp only [hasPath, getPath_dict_cons, hsome]
        exact hq
      · have hne : ¬(key = k') := fun hkk => hk hkk.symm
        simp only [hasPath, getPath_dict_cons, alookup, if_neg hne] at hq
        exact ih out h' (k' :: q') (by simp only [hasPath, getPath_dict_cons]; exact hq)
  | case3 key base data dv hlook p ih =>
    intro out h q hq
    have h' : recursively_resolve_keys base data = some out := by
      simpa [recursively_resolve_keys, hlook] using h
    cases q with
    | nil => rfl
    | cons k' q' =>
      by_cases hk : k' = key
      · subst hk
        simp only [hasPath, getPath_dict_cons, alookup, if_pos rfl] at hq
        cases q' with
        | nil =>
          apply resolve_mono base data out h' [k']
          simp [hasPath, getPath_dict_cons, hlook, getPath_nil]
        | cons k'' q'' => simp [getPath] at hq
      · have hne : ¬(key = k') := fun hkk => hk hkk.symm
        simp only [hasPath, getPath_dict_cons, alookup, if_neg hne] at hq
        exact ih out h' (k' :: q') (by simp only [hasPath, getPath_dict_cons]; exact hq)
  | case4 key base data dsub p hlook =>
    intro out h q hq
    simp [recursively_resolve_keys, hlook] at h
  | case5 key base data dsub dsub₁ hsub hlook ihsub =>
    intro out h q hq
    simp [recursively_resolve_keys, hlook, hsub] at h
  | case6 key base data dsub dsub₁ dsub' hsub hlook ihsub ih =>
    intro out h q hq
    have h' : recursively_resolve_keys base (aset key (.dict dsub') data) = some out := by
      simpa [recursively_resolve_keys, hlook, hsub] using h
    cases q with
    | nil => rfl
    | cons k' q' =>
      by_cases hk : k' = key
      · subst hk
        simp only [hasPath, getPath_dict_cons, alookup, if_pos rfl] at hq
        have hsub' : hasPath (.dict dsub') q' = true := ihsub dsub' hsub q' hq
        have hsome : alookup k' (aset k' (Val.dict dsub') data) = some (.dict dsub') :=
          alookup_aset_self (by simp [acontains, hlook]) _
        apply resolve_mono base (aset k' (Val.dict dsub') data) out h' (k' :: q')
        simp only [hasPath, getPath_dict_cons, hsome]
        exact hsub'
      · have hne : ¬(key = k') := fun hkk => hk hkk.symm
        simp only [hasPath, getPath_dict_cons, alookup, if_neg hne] at hq
        exact ih out h' (k' :: q') (by simp only [hasPath, getPath_dict_cons]; exact hq)

theorem nodupKeys_nil : nodupKeys [] = true := by
  rw [nodupKeys.eq_def]

theorem nodupKeys_cons (k : String) (v : Val) (base : Doc) :
    nodupKeys ((k, v) :: base) =
      (!acontains k base &&
        (match v with
          | .prim _ => true
          | .dict bsub => nodupKeys bsub) &&
        nodupKeys base) := by
  rw [nodupKeys.eq_def]

/-- On a duplicate-free base and a shape-compatible stored document the merge
never fails (Python raises no `TypeError`). -/
theorem resolve_total (b d : Doc) :
    nodupKeys b = true → compatible b d = true →
      ∃ out, recursively_resolve_keys b d = some out := by
  induction b, d using recursively_resolve_keys.induct with
  | case1 data =>
    intro _ _
    exact ⟨data, by simp [recursively_resolve_keys]⟩
  | case2 key value base data hlook ih =>
    intro hnd hc
    rw [nodupKeys_cons, Bool.and_eq_true, Bool.and_eq_true] at hnd
    obtain ⟨⟨hna, _⟩, hnb⟩ := hnd
    have hna' : acontains key base = false := by simpa using hna
    rw [compatible_cons, Bool.and_eq_true] at hc
    have hpt : ∀ e ∈ base, alookup e.1 (data ++ [(key, value)]) = alookup e.1 data := by
      intro e he
      have hne : e.1 ≠ key := by
        intro hkk
        have hcm := acontains_of_mem he
        rw [hkk, hna'] at hcm
        exact Bool.false_ne_true hcm
      exact alookup_append_single_ne hne data value
    obtain ⟨out, hout⟩ := ih hnb (compatible_frame base data _ hpt hc.2)
    exact ⟨out, by simp [recursively_resolve_keys, hlook, hout]⟩
  | case3 key base data dv hlook p ih =>
    intro hnd hc
    rw [nodupKeys_cons, Bool.and_eq_true, Bool.and_eq_true] at hnd
    rw [compatible_cons, Bool.and_eq_true] at hc
    obtain ⟨out, hout⟩ := ih hnd.2 hc.2
    exact ⟨out, by simp [recursively_resolve_keys, hlook, hout]⟩
  | case4 key base data dsub p hlook =>
    intro hnd hc
    exfalso
    rw [compatible_cons, Bool.and_eq_true, hlook] at hc
    simp at hc
  | case5 key base data dsub dsub₁ hsub hlook ihsub =>
    intro hnd hc
    exfalso
    rw [nodupKeys_cons, Bool.and_eq_true, Bool.and_eq_true] at hnd
    obtain ⟨⟨_, hnv⟩, _⟩ := hnd
    have hnv' : nodupKeys dsub = true := by simpa using hnv
    rw [compatible_cons, Bool.and_eq_true, hlook] at hc
    have hcs : compatible dsub dsub₁ = true := by simpa using hc.1
    obtain ⟨out, hout⟩ := ihsub hnv' hcs
    rw [hsub] at hout
    exact Option.noConfusion hout
  | case6 key base data dsub dsub₁ dsub' hsub hlook ihsub ih =>
    intro hnd hc
    rw [nodupKeys_cons, Bool.and_eq_true, Bool.and_eq_true] at hnd
    obtain ⟨⟨hna, _⟩, hnb⟩ := hnd
    have hna' : acontains key base = false := by simpa using hna
    rw [compatible_cons, Bool.and_eq_true] at hc
    have hpt : ∀ e ∈ base,
        alookup e.1 (aset key (Val.dict dsub') data) = alookup e.1 data := by
      intro e he
      have hne : e.1 ≠ key := by
        intro hkk
        have hcm := acontains_of_mem he
        rw [hkk, hna'] at hcm
        exact Bool.false_ne_true hcm
      exact alookup_aset_ne hne _ _
    obtain ⟨out, hout⟩ := ih hnb (compatible_frame base data _ hpt hc.2)
    exact ⟨out, by simp [recursively_resolve_keys, hlook, hsub, hout]⟩

/-- C6: loading a stored partial support-utility config document resolves the
defaults recursively: the merge succeeds, every key path of the default
document is present in the loaded document, every key path of the stored
document remains present, and every stored non-dict value is kept unchanged
(nested dict values are merged recursively rather than replaced). -/
theorem supportutils_config_merge (d : Doc)
    (hc : compatible supportutils_default_config d = true) :
    ∃ out, recursively_resolve_keys supportutils_default_config d = some out ∧
      (∀ q, hasPath (.dict supportutils_default_config) q = true →
        hasPath (.dict out) q = true) ∧
      (∀ q, hasPath (.dict d) q = true → hasPath (.dict out) q = true) ∧
      (∀ q w, getPath (.dict d) q = some (.prim w) →
        getPath (.dict out) q = some (.prim w)) := by
  have hnd : nodupKeys supportutils_default_config = true := by
    simp [supportutils_default_config, nodupKeys_nil, nodupKeys_cons, acontains,
      alookup, ps, pnone, pb]
  obtain ⟨out, hout⟩ := resolve_total supportutils_default_config d hnd hc
  exact ⟨out, hout, resolve_adds_base _ d out hout, resolve_mono _ d out hout,
    resolve_preserves _ d out hout⟩

/-- C6 witness: a stored partial document overriding only
`contact.message` is compatible with the defaults, and the merge theorem
applies to it. -/
theorem supportutils_config_merge_witness :
    compatible supportutils_default_config
        [("contact", Val.dict [("message", ps "hi")])] = true ∧
    (∃ out, recursively_resolve_keys supportutils_default_config
        [("contact", Val.dict [("message", ps "hi")])] = some out ∧
      (∀ q, hasPath (.dict supportutils_default_config) q = true →
        hasPath (.dict out) q = true) ∧
      (∀ q, hasPath (.dict [("contact", Val.dict [("message", ps "hi")])]) q = true →
        hasPath (.dict out) q = true) ∧
      (∀ q w, getPath (.dict [("contact", Val.dict [("message", ps "hi")])]) q
          = some (.prim w) →
        getPath (.dict out) q = some (.prim w))) := by
  have hc : compatible supportutils_default_config
      [("contact", Val.dict [("message", ps "hi")])] = true := by
    simp [supportutils_default_config, compatible_nil, compatible_cons, alookup,
      ps, pnone, pb]
  exact ⟨hc, supportutils_config_merge _ hc⟩

/-! ## Invite-diff lemmas -/

theorem filter_eq_single {p : String × Nat → Bool} {c : String} {u' : Nat} :
    ∀ {l : InviteSnapshot}, (l.map Prod.fst).Nodup →
      alookup c l = some u' →
      (∀ e ∈ l, (p e = true ↔ e.1 = c)) →
      l.filter p = [(c, u')] := by
  intro l
  induction l with
  | nil =>
    intro _ hmem _
    simp [alookup] at hmem
  | cons e rest ih =>
    intro hnd hmem hp
    obtain ⟨k₀, v₀⟩ := e
    simp only [List.map_cons, List.nodup_cons] at hnd
    by_cases h₀ : k₀ = c
    · subst h₀
      simp only [alookup, if_pos rfl] at hmem
      have hpe : p (k₀, v₀) = true :=
        (hp (k₀, v₀) (List.mem_cons_self _ _)).mpr rfl
      have hrest : rest.filter p = [] := by
        rw [List.filter_eq_nil_iff]
        intro a ha hpa
        have := (hp a (List.mem_cons_of_mem _ ha)).mp hpa
        exact hnd.1 (List.mem_map.mpr ⟨a, ha, this⟩)
      cases hmem
      simp [List.filter_cons, hpe, hrest]
    · have hmem' : alookup c rest = some u' := by
        simpa [alookup, h₀] using hmem
      have hpe : p (k₀, v₀) = false := by
        cases hpk : p (k₀, v₀) with
        | false => rfl
        | true => exact absurd ((hp (k₀, v₀) (List.mem_cons_self _ _)).mp hpk) h₀
      rw [List.filter_cons, if_neg (by simp [hpe])]
      exact ih hnd.2 hmem' fun e he => hp e (List.mem_cons_of_mem _ he)

theorem two_le_length_of_mem {α : Type} {x y : α} {l : List α} (hxy : x ≠ y)
    (hx : x ∈ l) (hy : y ∈ l) : 2 ≤ l.length := by
  induction l with
  | nil => simp at hx
  | cons a t ih =>
    rcases List.mem_cons.mp hx with rfl | hx'
    · rcases List.mem_cons.mp hy with rfl | hy'
      · exact absurd rfl hxy
      · have := List.length_pos_of_mem hy'
        simp only [List.length_cons]
        omega
    · have := List.length_pos_of_mem hx'
      simp only [List.length_cons]
      omega

/-- C1: the invite-usage inference: for snapshots of the same guild in which
exactly one invite's use count increased and all others are unchanged, the
inference returns exactly that invite as the sole candidate; with no
increment it returns the empty candidate set; with two or more incremented
invites it returns a multi-element candidate set. -/
theorem candidateInvites_spec :
    (∀ (old new : InviteSnapshot) (c : String) (u u' : Nat),
        (new.map Prod.fst).Nodup →
        alookup c old = some u → alookup c new = some u' → u < u' →
        (∀ c', c' ≠ c → alookup c' new = alookup c' old) →
        candidateInvites old new = [c]) ∧
    (∀ (old new : InviteSnapshot),
        (new.map Prod.fst).Nodup →
        (∀ c, alookup c new = alookup c old) →
        candidateInvites old new = []) ∧
    (∀ (old new : InviteSnapshot) (c₁ c₂ : String) (u₁ u₁' u₂ u₂' : Nat),
        c₁ ≠ c₂ →
        alookup c₁ old = some u₁ → alookup c₁ new = some u₁' → u₁ < u₁' →
        alookup c₂ old = some u₂ → alookup c₂ new = some u₂' → u₂ < u₂' →
        2 ≤ (candidateInvites old new).length) := by
  refine ⟨?_, ?_, ?_⟩
  · intro old new c u u' hnd hold hnew hlt hother
    have hp : ∀ e ∈ new,
        ((match alookup e.1 old with
          | some u0 => decide (u0 < e.2)
          | none => false) = true ↔ e.1 = c) := by
      intro e he
      obtain ⟨ec, eu⟩ := e
      have hm := alookup_of_mem_nodup hnd he
      by_cases hec : ec = c
      · subst hec
        rw [hm] at hnew
        cases hnew
        simp [hold, hlt]
      · have ho := hother ec hec
        rw [hm] at ho
        simp [← ho, hec]
    have hfil := filter_eq_single (p := fun e =>
        match alookup e.1 old with
        | some u0 => decide (u0 < e.2)
        | none => false) hnd hnew hp
    simp [candidateInvites, hfil]
  · intro old new hnd hsame
    have hfil : (new.filter fun e =>
        match alookup e.1 old with
        | some u0 => decide (u0 < e.2)
        | none => false) = [] := by
      rw [List.filter_eq_nil_iff]
      intro e he
      obtain ⟨ec, eu⟩ := e
      have hm := alookup_of_mem_nodup hnd he
      have ho := hsame ec
      rw [hm] at ho
      simp [← ho]
    simp [candidateInvites, hfil]
  · intro old new c₁ c₂ u₁ u₁' u₂ u₂' hne h₁o h₁n hlt₁ h₂o h₂n hlt₂
    have hm₁ : (c₁, u₁') ∈ new.filter (fun e =>
        match alookup e.1 old with
        | some u0 => decide (u0 < e.2)
        | none => false) :=
      List.mem_filter.mpr ⟨alookup_mem h₁n, by simp [h₁o, hlt₁]⟩
    have hm₂ : (c₂, u₂') ∈ new.filter (fun e =>
        match alookup e.1 old with
        | some u0 => decide (u0 < e.2)
        | none => false) :=
      List.mem_filter.mpr ⟨alookup_mem h₂n, by simp [h₂o, hlt₂]⟩
    have hxy : (c₁, u₁') ≠ (c₂, u₂') := by simp [Prod.mk.injEq, hne]
    have hlen := two_le_length_of_mem hxy hm₁ hm₂
    simpa [candidateInvites] using hlen

/-- C1 witness: with `a` incremented from 3 to 4 the inference returns
exactly `a`; with unchanged counts it returns no candidate; with both `a`
and `b` incremented it returns at least two candidates. -/
theorem candidateInvites_spec_witness :
    candidateInvites [("a", 3), ("b", 5)] [("a", 4), ("b", 5)] = ["a"] ∧
    candidateInvites [("a", 3), ("b", 5)] [("a", 3), ("b", 5)] = [] ∧
    2 ≤ (candidateInvites [("a", 3), ("b", 5)] [("a", 4), ("b", 6)]).length := by
  refine ⟨?_, ?_, ?_⟩
  · apply candidateInvites_spec.1 [("a", 3), ("b", 5)] [("a", 4), ("b", 5)] "a" 3 4
      (by decide) rfl rfl (by decide)
    intro c' hc
    have h1 : ¬("a" = c') := fun h => hc h.symm
    simp [alookup, h1]
  · exact candidateInvites_spec.2.1 [("a", 3), ("b", 5)] [("a", 3), ("b", 5)]
      (by decide) (fun c => rfl)
  · exact candidateInvites_spec.2.2 [("a", 3), ("b", 5)] [("a", 4), ("b", 6)]
      "a" "b" 3 4 5 6 (by decide) rfl rfl (by decide) rfl rfl (by decide)

end ModmailPlugins
